import Mathlib

/-!
# Vidmet signaling coordinator (src/server/server.js)

A shallow embedding of the WebSocket coordinator: the two global maps
(`clients`, `callGroups`), the two closure variables of every connection
(`clientId`, `currentCallId`), the `message` handler and the `close` handler.

Modelling decisions:
* a JavaScript `Map` is an association list in insertion order, a `Set` a list in
  insertion order; `Map.set` on a present key overwrites in place, on an absent
  key appends; `Set.add` of a present element does nothing;
* a transport (`ws`) is named by a natural number;
* `ws.send(JSON.stringify(o))` is recorded as the pair (transport, `o`);
* `Date.now()` is an input of the handler;
* a message that fails to parse, or has an unrecognised `type`, is `InMsg.other`.
-/

namespace Vidmet

/-- A value read from a parsed message field or held in a closure variable.
Here `undef` is a missing field, `ref` an object or array (compared by reference,
named by a number) and `num` an integer-valued number; every non-zero number behaves
like `num` of a non-zero integer. -/
inductive JVal where
  | undef
  | null
  | bool (b : Bool)
  | num (n : Int)
  | str (s : String)
  | ref (r : Nat)
  deriving DecidableEq, Repr

/-- JavaScript truthiness, as tested by `if (clientId)`, `message.target && ...`. -/
def JVal.truthy : JVal → Bool
  | .undef => false
  | .null => false
  | .bool b => b
  | .num n => decide (n ≠ 0)
  | .str s => decide (s ≠ "")
  | .ref _ => true

/-! ## `Map` and `Set` -/

/-- The method `Map.prototype.get`. -/
def mapGet {κ β : Type} [DecidableEq κ] : List (κ × β) → κ → Option β
  | [], _ => none
  | (k', v) :: rest, k => if k' = k then some v else mapGet rest k

/-- The method `Map.prototype.has`. -/
def mapHas {κ β : Type} [DecidableEq κ] (m : List (κ × β)) (k : κ) : Bool :=
  (mapGet m k).isSome

/-- The method `Map.prototype.set`: overwrite in place, or append a new entry. -/
def mapSet {κ β : Type} [DecidableEq κ] : List (κ × β) → κ → β → List (κ × β)
  | [], k, v => [(k, v)]
  | (k', v') :: rest, k, v =>
    if k' = k then (k, v) :: rest else (k', v') :: mapSet rest k v

/-- The method `Map.prototype.delete`. -/
def mapDelete {κ β : Type} [DecidableEq κ] (m : List (κ × β)) (k : κ) : List (κ × β) :=
  m.filter (fun e => decide (e.1 ≠ k))

/-- The keys in insertion order, `Array.from(map.keys())`. -/
def mapKeys {κ β : Type} (m : List (κ × β)) : List κ :=
  m.map Prod.fst

/-- The method `Set.prototype.add`. -/
def setAdd (s : List JVal) (x : JVal) : List JVal :=
  if x ∈ s then s else s ++ [x]

/-- The method `Set.prototype.delete`. -/
def setDelete (s : List JVal) (x : JVal) : List JVal :=
  s.filter (fun y => decide (y ≠ x))

/-! ## Messages -/

/-- The three relayed message types. -/
inductive RelayKind where
  | offer
  | answer
  | iceCandidate
  deriving DecidableEq, Repr

/-- The `data` field of a relayed message; never inspected by the coordinator. -/
structure Payload where
  json : String
  deriving DecidableEq, Repr

/-- A parsed inbound message, by `message.type`. -/
inductive InMsg where
  | register (id : JVal)
  | createCall
  | joinCall (callId : JVal)
  | relay (kind : RelayKind) (target : JVal) (data : Payload)
  | getPeers
  | getCallParticipants
  | other
  deriving DecidableEq, Repr

/-- An object handed to `ws.send(JSON.stringify(...))`. -/
inductive OutMsg where
  | callCreated (callId : JVal)
  | peerJoined (peerId callId : JVal) (allPeers : List JVal)
  | relayed (kind : RelayKind) (sender : JVal) (data : Payload)
  | peersList (peers : List JVal)
  | callParticipants (callId : JVal) (participants : List JVal)
  | peerLeft (peerId callId : JVal)
  deriving DecidableEq, Repr

/-- One `send` call: the transport and the object sent. -/
abbrev Sent := Nat × OutMsg

/-! ## State -/

/-- The closure variables of one connection (server.js lines 27-28). -/
structure Conn where
  clientId : JVal
  currentCallId : JVal
  deriving DecidableEq, Repr

/-- The closure variables of a connection that has handled nothing yet. -/
def Conn.fresh : Conn := ⟨.null, .null⟩

/-- The coordinator: the two global maps and the closure variables of each
connection that has handled at least one message. -/
structure State where
  clients : List (JVal × Nat)
  callGroups : List (JVal × List JVal)
  conns : List (Nat × Conn)
  deriving DecidableEq, Repr

/-- The state at server start. -/
def State.init : State := ⟨[], [], []⟩

/-- The closure variables of connection `ws`. -/
def State.conn (s : State) (ws : Nat) : Conn :=
  (mapGet s.conns ws).getD Conn.fresh

/-- The body of both `forEach` loops: `if (clients.has(peerId))
clients.get(peerId).send(msg)`. -/
def sendIfRegistered (clients : List (JVal × Nat)) (msg : OutMsg) (peerId : JVal) :
    List Sent :=
  if mapHas clients peerId then
    match mapGet clients peerId with
    | some target => [(target, msg)]
    | none => []
  else []

/-- The loop `participants.forEach(peerId => ...)` with the body above. -/
def forEachSend (clients : List (JVal × Nat)) (msg : OutMsg) :
    List JVal → List Sent
  | [] => []
  | peerId :: rest => sendIfRegistered clients msg peerId ++ forEachSend clients msg rest

/-- The template literal `call-${Date.now()}`. -/
def newCallId (now : Nat) : JVal :=
  .str ("call-" ++ toString now)

/-! ## Handlers -/

/-- The `ws.on('message')` handler (server.js lines 30-115) for connection `ws`,
with `now` the value `Date.now()` would return. -/
def handleMessage (s : State) (ws : Nat) (now : Nat) (message : InMsg) :
    State × List Sent :=
  let c := s.conn ws
  match message with
  | .register id =>
    ({ s with clients := mapSet s.clients id ws,
              conns := mapSet s.conns ws { c with clientId := id } }, [])
  | .createCall =>
    let currentCallId := newCallId now
    ({ s with callGroups := mapSet s.callGroups currentCallId [c.clientId],
              conns := mapSet s.conns ws { c with currentCallId := currentCallId } },
     [(ws, .callCreated currentCallId)])
  | .joinCall callId =>
    let conns := mapSet s.conns ws { c with currentCallId := callId }
    if mapHas s.callGroups callId then
      match mapGet s.callGroups callId with
      | some members =>
        let joined := setAdd members c.clientId
        ({ s with callGroups := mapSet s.callGroups callId joined, conns := conns },
         forEachSend s.clients (.peerJoined c.clientId callId joined) joined)
      | none => ({ s with conns := conns }, [])
    else ({ s with conns := conns }, [])
  | .relay kind target data =>
    if target.truthy && mapHas s.clients target then
      match mapGet s.clients target with
      | some targetWs => (s, [(targetWs, .relayed kind c.clientId data)])
      | none => (s, [])
    else (s, [])
  | .getPeers =>
    let allPeers := (mapKeys s.clients).filter (fun id => decide (id ≠ c.clientId))
    (s, [(ws, .peersList allPeers)])
  | .getCallParticipants =>
    if c.currentCallId.truthy && mapHas s.callGroups c.currentCallId then
      match mapGet s.callGroups c.currentCallId with
      | some members => (s, [(ws, .callParticipants c.currentCallId members)])
      | none => (s, [])
    else (s, [])
  | .other => (s, [])

/-- The `ws.on('close')` handler (server.js lines 117-144) for connection `ws`. -/
def handleClose (s : State) (ws : Nat) : State × List Sent :=
  let c := s.conn ws
  if c.clientId.truthy then
    let clients := mapDelete s.clients c.clientId
    if c.currentCallId.truthy && mapHas s.callGroups c.currentCallId then
      match mapGet s.callGroups c.currentCallId with
      | some members =>
        let participants := setDelete members c.clientId
        let out := forEachSend clients (.peerLeft c.clientId c.currentCallId) participants
        let groups := mapSet s.callGroups c.currentCallId participants
        if participants.length = 0 then
          ({ s with clients := clients, callGroups := mapDelete groups c.currentCallId }, out)
        else
          ({ s with clients := clients, callGroups := groups }, out)
      | none => ({ s with clients := clients }, [])
    else ({ s with clients := clients }, [])
  else (s, [])

/-- What the coordinator reacts to: a message on a connection (with the clock
reading at that moment) or the close of a connection. -/
inductive Event where
  | message (ws : Nat) (now : Nat) (m : InMsg)
  | close (ws : Nat)
  deriving DecidableEq, Repr

/-- One event, handled to completion. -/
def step (s : State) : Event → State × List Sent
  | .message ws now m => handleMessage s ws now m
  | .close ws => handleClose s ws

/-- The state after a sequence of events. -/
def run (s : State) : List Event → State
  | [] => s
  | e :: es => run (step s e).1 es

/-! ## Invariants and event classes -/

/-- No entry of the call table has an empty member set. -/
def NoEmptyCall (s : State) : Prop :=
  ∀ e ∈ s.callGroups, e.2 ≠ []

/-- Every key of the call table is truthy. -/
def CallIdsTruthy (s : State) : Prop :=
  ∀ e ∈ s.callGroups, e.1.truthy = true

/-- Whether an event is a `register` message or a close: the only events that
write to `clients`. -/
def Event.writesRegistry : Event → Bool
  | .message _ _ (.register _) => true
  | .close _ => true
  | _ => false

/-! ## Traces used as concrete inputs -/

/-- Client `u1` (connection 1) registers and opens a call at clock 1000; `u2`
(connection 2) registers. -/
def traceCallOpen : List Event :=
  [.message 1 0 (.register (.str "u1")), .message 1 1000 .createCall,
   .message 2 0 (.register (.str "u2"))]

/-- After `traceCallOpen`, `u2` joins the call of `u1`. -/
def traceJoined : List Event :=
  traceCallOpen ++ [.message 2 0 (.joinCall (.str "call-1000"))]

/-- Connection 1 registers `u1`, opens a call at clock 1000 and another at clock
2000, then closes; afterwards connection 2 registers `u2`. -/
def traceStaleMember : List Event :=
  [.message 1 0 (.register (.str "u1")), .message 1 1000 .createCall,
   .message 1 2000 .createCall, .close 1, .message 2 0 (.register (.str "u2"))]

/-- Connection 1 registers the empty string as its id; connection 2 registers
`u2`. -/
def traceEmptyId : List Event :=
  [.message 1 0 (.register (.str "")), .message 2 0 (.register (.str "u2"))]

/-- Two connections open a call within the same millisecond. -/
def traceSameClock : List Event :=
  [.message 1 0 (.register (.str "u1")), .message 1 1000 .createCall,
   .message 2 0 (.register (.str "u2")), .message 2 1000 .createCall]

/-- Client `u1` opens `call-1000`, `u3` opens `call-2000`, and `u2` joins the first and then
the second. -/
def traceTwoCalls : List Event :=
  [.message 1 0 (.register (.str "u1")), .message 1 1000 .createCall,
   .message 3 0 (.register (.str "u3")), .message 3 2000 .createCall,
   .message 2 0 (.register (.str "u2")),
   .message 2 0 (.joinCall (.str "call-1000")),
   .message 2 0 (.joinCall (.str "call-2000"))]

/-- Connection 1 registers `a` and then `b`; connection 2 registers `u2`. -/
def traceReRegister : List Event :=
  [.message 1 0 (.register (.str "a")), .message 1 0 (.register (.str "b")),
   .message 2 0 (.register (.str "u2"))]

/-- Connections 1 and 2 both register the empty string; connection 3 registers
`u3`. -/
def traceEmptyIdTwice : List Event :=
  [.message 1 0 (.register (.str "")), .message 2 0 (.register (.str "")),
   .message 3 0 (.register (.str "u3"))]

/-- Connection 1 and then connection 2 register the same id `x`; connection 3
registers `u3`. -/
def traceSharedId : List Event :=
  [.message 1 0 (.register (.str "x")), .message 2 0 (.register (.str "x")),
   .message 3 0 (.register (.str "u3"))]

/-! ## Facts about `Map` and `Set` -/

theorem mapHas_eq_false_iff {κ β : Type} [DecidableEq κ] (m : List (κ × β)) (k : κ) :
    mapHas m k = false ↔ mapGet m k = none := by
  unfold mapHas
  cases mapGet m k <;> simp

theorem mapGet_mapSet_self {κ β : Type} [DecidableEq κ] (m : List (κ × β)) (k : κ) (v : β) :
    mapGet (mapSet m k v) k = some v := by
  induction m with
  | nil => simp [mapSet, mapGet]
  | cons e rest ih =>
    obtain ⟨k', v'⟩ := e
    by_cases h : k' = k
    · simp [mapSet, mapGet, h]
    · simp [mapSet, mapGet, h, ih]

theorem mapGet_mapSet_ne {κ β : Type} [DecidableEq κ] (m : List (κ × β)) (k k₀ : κ) (v : β)
    (hne : k₀ ≠ k) : mapGet (mapSet m k v) k₀ = mapGet m k₀ := by
  induction m with
  | nil =>
    have h : ¬ k = k₀ := fun h => hne h.symm
    simp [mapSet, mapGet, h]
  | cons e rest ih =>
    obtain ⟨k', v'⟩ := e
    by_cases h : k' = k
    · subst h
      have h2 : ¬ k' = k₀ := fun h => hne h.symm
      simp [mapSet, mapGet, h2]
    · by_cases h3 : k' = k₀
      · subst h3
        simp [mapSet, mapGet, h]
      · simp [mapSet, mapGet, h, h3, ih]

theorem mapGet_mapDelete_self {κ β : Type} [DecidableEq κ] (m : List (κ × β)) (k : κ) :
    mapGet (mapDelete m k) k = none := by
  induction m with
  | nil => simp [mapDelete, mapGet]
  | cons e rest ih =>
    obtain ⟨k', v'⟩ := e
    by_cases h : k' = k
    · simpa [mapDelete, h] using ih
    · simpa [mapDelete, mapGet, h] using ih

theorem mapGet_mapDelete_ne {κ β : Type} [DecidableEq κ] (m : List (κ × β)) (k k₀ : κ)
    (hne : k₀ ≠ k) : mapGet (mapDelete m k) k₀ = mapGet m k₀ := by
  induction m with
  | nil => simp [mapDelete, mapGet]
  | cons e rest ih =>
    obtain ⟨k', v'⟩ := e
    by_cases h : k' = k
    · subst h
      have h2 : ¬ k' = k₀ := fun h => hne h.symm
      simpa [mapDelete, mapGet, h2] using ih
    · by_cases h3 : k' = k₀
      · subst h3
        simp [mapDelete, mapGet, h]
      · simpa [mapDelete, mapGet, h, h3] using ih

theorem mem_of_mapGet {κ β : Type} [DecidableEq κ] (m : List (κ × β)) (k : κ) (v : β)
    (h : mapGet m k = some v) : (k, v) ∈ m := by
  induction m with
  | nil => simp [mapGet] at h
  | cons e rest ih =>
    obtain ⟨k', v'⟩ := e
    by_cases hk : k' = k
    · simp only [mapGet, hk, if_true, Option.some.injEq] at h
      simp [hk, h]
    · simp only [mapGet, hk, if_false] at h
      exact List.mem_cons_of_mem _ (ih h)

theorem mem_of_mem_mapSet {κ β : Type} [DecidableEq κ] (m : List (κ × β)) (k : κ) (v : β)
    (e : κ × β) (he : e ∈ mapSet m k v) : e = (k, v) ∨ e ∈ m := by
  induction m with
  | nil => simpa [mapSet] using he
  | cons e' rest ih =>
    obtain ⟨k', v'⟩ := e'
    by_cases h : k' = k
    · simp only [mapSet, h, if_true, List.mem_cons] at he
      rcases he with he | he
      · exact Or.inl he
      · exact Or.inr (List.mem_cons_of_mem _ he)
    · simp only [mapSet, h, if_false, List.mem_cons] at he
      rcases he with he | he
      · exact Or.inr (by simp [he])
      · rcases ih he with h1 | h1
        · exact Or.inl h1
        · exact Or.inr (List.mem_cons_of_mem _ h1)

theorem mem_mapDelete {κ β : Type} [DecidableEq κ] (m : List (κ × β)) (k : κ)
    (e : κ × β) : e ∈ mapDelete m k ↔ e ∈ m ∧ e.1 ≠ k := by
  simp [mapDelete]

theorem mem_mapKeys_iff {κ β : Type} [DecidableEq κ] (m : List (κ × β)) (k : κ) :
    k ∈ mapKeys m ↔ mapHas m k = true := by
  induction m with
  | nil => simp [mapKeys, mapHas, mapGet]
  | cons e rest ih =>
    obtain ⟨k', v'⟩ := e
    by_cases h : k' = k
    · simp [mapKeys, mapHas, mapGet, h]
    · have h2 : ¬ k = k' := fun h' => h h'.symm
      simp only [mapKeys, mapHas, mapGet, h, if_false, List.map_cons, List.mem_cons, h2,
        false_or]
      simpa [mapKeys, mapHas] using ih

theorem mem_setAdd (s : List JVal) (x y : JVal) : y ∈ setAdd s x ↔ y ∈ s ∨ y = x := by
  unfold setAdd
  by_cases h : x ∈ s
  · simp only [h, if_true]
    constructor
    · exact Or.inl
    · rintro (h1 | h1)
      · exact h1
      · exact h1 ▸ h
  · simp [h]

theorem setAdd_ne_nil (s : List JVal) (x : JVal) : setAdd s x ≠ [] := by
  intro h
  have : x ∈ setAdd s x := (mem_setAdd s x x).2 (Or.inr rfl)
  rw [h] at this
  simp at this

theorem nodup_setAdd (s : List JVal) (x : JVal) (h : s.Nodup) : (setAdd s x).Nodup := by
  unfold setAdd
  by_cases hx : x ∈ s
  · simpa [hx] using h
  · simp only [hx, if_false]
    rw [List.nodup_append]
    refine ⟨h, List.nodup_singleton x, ?_⟩
    intro a ha hb
    simp only [List.mem_singleton] at hb
    exact hx (hb ▸ ha)

theorem mem_setDelete (s : List JVal) (x y : JVal) : y ∈ setDelete s x ↔ y ∈ s ∧ y ≠ x := by
  simp [setDelete]

theorem nodup_setDelete (s : List JVal) (x : JVal) (h : s.Nodup) : (setDelete s x).Nodup :=
  h.filter _

theorem setDelete_eq_nil (s : List JVal) (x : JVal) (h : ∀ p ∈ s, p = x) :
    setDelete s x = [] := by
  unfold setDelete
  rw [List.filter_eq_nil_iff]
  intro a ha
  simp [h a ha]

/-! ## The handlers, case by case -/

theorem forEachSend_eq_filterMap (clients : List (JVal × Nat)) (msg : OutMsg)
    (l : List JVal) :
    forEachSend clients msg l
      = l.filterMap (fun p => (mapGet clients p).map (fun t => (t, msg))) := by
  induction l with
  | nil => rfl
  | cons p rest ih =>
    cases hp : mapGet clients p with
    | none => simp [forEachSend, sendIfRegistered, mapHas, hp, ih, List.filterMap_cons]
    | some t => simp [forEachSend, sendIfRegistered, mapHas, hp, ih, List.filterMap_cons]

theorem handleMessage_joinCall_some (s : State) (ws now : Nat) (callId : JVal)
    (members : List JVal) (hget : mapGet s.callGroups callId = some members) :
    handleMessage s ws now (.joinCall callId)
      = ({ s with
            callGroups := mapSet s.callGroups callId (setAdd members (s.conn ws).clientId),
            conns := mapSet s.conns ws { s.conn ws with currentCallId := callId } },
         forEachSend s.clients
           (.peerJoined (s.conn ws).clientId callId (setAdd members (s.conn ws).clientId))
           (setAdd members (s.conn ws).clientId)) := by
  simp [handleMessage, mapHas, hget]

theorem handleMessage_joinCall_none (s : State) (ws now : Nat) (callId : JVal)
    (hget : mapGet s.callGroups callId = none) :
    handleMessage s ws now (.joinCall callId)
      = ({ s with conns := mapSet s.conns ws { s.conn ws with currentCallId := callId } },
         []) := by
  simp [handleMessage, mapHas, hget]

theorem handleClose_falsy (s : State) (ws : Nat)
    (hid : (s.conn ws).clientId.truthy = false) : handleClose s ws = (s, []) := by
  simp [handleClose, hid]

theorem handleClose_no_call (s : State) (ws : Nat)
    (hid : (s.conn ws).clientId.truthy = true)
    (hcall : (s.conn ws).currentCallId.truthy = false
      ∨ mapGet s.callGroups (s.conn ws).currentCallId = none) :
    handleClose s ws
      = ({ s with clients := mapDelete s.clients (s.conn ws).clientId }, []) := by
  rcases hcall with h | h
  · simp [handleClose, hid, h]
  · simp [handleClose, hid, h, mapHas]

theorem handleClose_in_call (s : State) (ws : Nat) (members : List JVal)
    (hid : (s.conn ws).clientId.truthy = true)
    (hcall : (s.conn ws).currentCallId.truthy = true)
    (hget : mapGet s.callGroups (s.conn ws).currentCallId = some members) :
    handleClose s ws
      = ({ s with
            clients := mapDelete s.clients (s.conn ws).clientId,
            callGroups :=
              if setDelete members (s.conn ws).clientId = [] then
                mapDelete
                  (mapSet s.callGroups (s.conn ws).currentCallId
                    (setDelete members (s.conn ws).clientId))
                  (s.conn ws).currentCallId
              else
                mapSet s.callGroups (s.conn ws).currentCallId
                  (setDelete members (s.conn ws).clientId) },
         forEachSend (mapDelete s.clients (s.conn ws).clientId)
           (.peerLeft (s.conn ws).clientId (s.conn ws).currentCallId)
           (setDelete members (s.conn ws).clientId)) := by
  by_cases hnil : setDelete members (s.conn ws).clientId = []
  · simp [handleClose, hid, hcall, hget, mapHas, hnil]
  · simp [handleClose, hid, hcall, hget, mapHas, hnil]

/-! ## Invariants of the call table -/

theorem newCallId_truthy (now : Nat) : (newCallId now).truthy = true := by
  have hlen : ("call-" ++ toString now).length ≠ 0 := by
    rw [String.length_append]
    have : ("call-" : String).length = 5 := by decide
    omega
  have hne : ("call-" ++ toString now) ≠ "" := by
    intro h
    rw [h] at hlen
    exact hlen rfl
  simp [newCallId, JVal.truthy, hne]

theorem noEmptyCall_step (s : State) (e : Event) (h : NoEmptyCall s) :
    NoEmptyCall (step s e).1 := by
  cases e with
  | message ws now m =>
    cases m with
    | register id => exact h
    | createCall =>
      intro e he
      rcases mem_of_mem_mapSet _ _ _ e he with h1 | h1
      · rw [h1]; simp
      · exact h e h1
    | joinCall callId =>
      cases hget : mapGet s.callGroups callId with
      | none =>
        simp only [step, handleMessage_joinCall_none s ws now callId hget]
        exact h
      | some members =>
        simp only [step, handleMessage_joinCall_some s ws now callId members hget]
        intro e he
        rcases mem_of_mem_mapSet _ _ _ e he with h1 | h1
        · rw [h1]; exact setAdd_ne_nil _ _
        · exact h e h1
    | relay kind target data =>
      simp only [step, handleMessage]
      split
      · split <;> exact h
      · exact h
    | getPeers => exact h
    | getCallParticipants =>
      simp only [step, handleMessage]
      split
      · split <;> exact h
      · exact h
    | other => exact h
  | close ws =>
    simp only [step]
    cases hid : (s.conn ws).clientId.truthy with
    | false => rw [handleClose_falsy s ws hid]; exact h
    | true =>
      cases hcall : (s.conn ws).currentCallId.truthy with
      | false => rw [handleClose_no_call s ws hid (Or.inl hcall)]; exact h
      | true =>
        cases hget : mapGet s.callGroups (s.conn ws).currentCallId with
        | none => rw [handleClose_no_call s ws hid (Or.inr hget)]; exact h
        | some members =>
          rw [handleClose_in_call s ws members hid hcall hget]
          intro e he
          simp only at he
          split at he
          · next hnil =>
            rw [mem_mapDelete] at he
            rcases mem_of_mem_mapSet _ _ _ e he.1 with h1 | h1
            · exact absurd (by rw [h1]) he.2
            · exact h e h1
          · next hnil =>
            rcases mem_of_mem_mapSet _ _ _ e he with h1 | h1
            · rw [h1]; exact hnil
            · exact h e h1

theorem noEmptyCall_run (es : List Event) (s : State) (h : NoEmptyCall s) :
    NoEmptyCall (run s es) := by
  induction es generalizing s with
  | nil => exact h
  | cons e rest ih => exact ih _ (noEmptyCall_step s e h)

theorem callIdsTruthy_step (s : State) (e : Event) (h : CallIdsTruthy s) :
    CallIdsTruthy (step s e).1 := by
  cases e with
  | message ws now m =>
    cases m with
    | register id => exact h
    | createCall =>
      intro e he
      rcases mem_of_mem_mapSet _ _ _ e he with h1 | h1
      · rw [h1]; exact newCallId_truthy now
      · exact h e h1
    | joinCall callId =>
      cases hget : mapGet s.callGroups callId with
      | none =>
        simp only [step, handleMessage_joinCall_none s ws now callId hget]
        exact h
      | some members =>
        simp only [step, handleMessage_joinCall_some s ws now callId members hget]
        have hk : callId.truthy = true := by
          have hmem : (callId, members) ∈ s.callGroups := mem_of_mapGet _ _ _ hget
          exact h _ hmem
        intro e he
        rcases mem_of_mem_mapSet _ _ _ e he with h1 | h1
        · rw [h1]; exact hk
        · exact h e h1
    | relay kind target data =>
      simp only [step, handleMessage]
      split
      · split <;> exact h
      · exact h
    | getPeers => exact h
    | getCallParticipants =>
      simp only [step, handleMessage]
      split
      · split <;> exact h
      · exact h
    | other => exact h
  | close ws =>
    simp only [step]
    cases hid : (s.conn ws).clientId.truthy with
    | false => rw [handleClose_falsy s ws hid]; exact h
    | true =>
      cases hcall : (s.conn ws).currentCallId.truthy with
      | false => rw [handleClose_no_call s ws hid (Or.inl hcall)]; exact h
      | true =>
        cases hget : mapGet s.callGroups (s.conn ws).currentCallId with
        | none => rw [handleClose_no_call s ws hid (Or.inr hget)]; exact h
        | some members =>
          rw [handleClose_in_call s ws members hid hcall hget]
          intro e he
          simp only at he
          split at he
          · rw [mem_mapDelete] at he
            rcases mem_of_mem_mapSet _ _ _ e he.1 with h1 | h1
            · rw [h1]; exact hcall
            · exact h e h1
          · rcases mem_of_mem_mapSet _ _ _ e he with h1 | h1
            · rw [h1]; exact hcall
            · exact h e h1

theorem callIdsTruthy_run (es : List Event) (s : State) (h : CallIdsTruthy s) :
    CallIdsTruthy (run s es) := by
  induction es generalizing s with
  | nil => exact h
  | cons e rest ih => exact ih _ (callIdsTruthy_step s e h)

/-! ## Registry frame facts -/

theorem clients_step_of_not_writes (s : State) (e : Event)
    (h : e.writesRegistry = false) : (step s e).1.clients = s.clients := by
  cases e with
  | message ws now m =>
    cases m with
    | register id => simp [Event.writesRegistry] at h
    | createCall => rfl
    | joinCall callId =>
      cases hget : mapGet s.callGroups callId with
      | none => simp only [step, handleMessage_joinCall_none s ws now callId hget]
      | some members =>
        simp only [step, handleMessage_joinCall_some s ws now callId members hget]
    | relay kind target data =>
      simp only [step, handleMessage]
      split
      · split <;> rfl
      · rfl
    | getPeers => rfl
    | getCallParticipants =>
      simp only [step, handleMessage]
      split
      · split <;> rfl
      · rfl
    | other => rfl
  | close ws => simp [Event.writesRegistry] at h

theorem handleMessage_relay_some (s : State) (ws now : Nat) (kind : RelayKind)
    (target : JVal) (data : Payload) (t : Nat) (htruthy : target.truthy = true)
    (hget : mapGet s.clients target = some t) :
    handleMessage s ws now (.relay kind target data)
      = (s, [(t, .relayed kind (s.conn ws).clientId data)]) := by
  simp [handleMessage, htruthy, mapHas, hget]

theorem handleMessage_relay_drop (s : State) (ws now : Nat) (kind : RelayKind)
    (target : JVal) (data : Payload)
    (h : target.truthy = false ∨ mapGet s.clients target = none) :
    handleMessage s ws now (.relay kind target data) = (s, []) := by
  rcases h with h | h
  · simp [handleMessage, h]
  · simp [handleMessage, mapHas, h]

theorem handleMessage_getPeers (s : State) (ws now : Nat) :
    handleMessage s ws now .getPeers
      = (s, [(ws, .peersList
          ((mapKeys s.clients).filter (fun id => decide (id ≠ (s.conn ws).clientId))))]) :=
  rfl

theorem mem_peers_iff (s : State) (ws : Nat) (x : JVal) :
    x ∈ (mapKeys s.clients).filter (fun id => decide (id ≠ (s.conn ws).clientId))
      ↔ (mapHas s.clients x = true ∧ x ≠ (s.conn ws).clientId) := by
  simp [List.mem_filter, mem_mapKeys_iff]

/-! ## C1: no call with an empty member set -/

/-- C1. In every state reached from the start state by any sequence of messages and
close events, no entry of `callGroups` has an empty member set; and when a
connection whose id is the only member of its current call closes, that call id is
absent from `callGroups` right after the close. -/
theorem callGroups_never_empty (es : List Event) :
    (∀ e ∈ (run State.init es).callGroups, e.2 ≠ []) ∧
    (∀ (ws : Nat) (members : List JVal),
      ((run State.init es).conn ws).clientId.truthy = true →
      mapGet (run State.init es).callGroups ((run State.init es).conn ws).currentCallId
        = some members →
      (∀ p ∈ members, p = ((run State.init es).conn ws).clientId) →
      mapHas (handleClose (run State.init es) ws).1.callGroups
        ((run State.init es).conn ws).currentCallId = false) := by
  have hinit : NoEmptyCall State.init := by intro e he; simp [State.init] at he
  have hinit2 : CallIdsTruthy State.init := by intro e he; simp [State.init] at he
  refine ⟨noEmptyCall_run es State.init hinit, ?_⟩
  intro ws members hid hget hall
  have hcall : ((run State.init es).conn ws).currentCallId.truthy = true :=
    callIdsTruthy_run es State.init hinit2 _ (mem_of_mapGet _ _ _ hget)
  rw [handleClose_in_call _ ws members hid hcall hget]
  rw [mapHas_eq_false_iff]
  simp only [setDelete_eq_nil members _ hall, if_true]
  exact mapGet_mapDelete_self _ _

/-- C1, at a trace: `u1` opens a call, `u2` joins it, `u1` closes, and `u2`, now
the only member, is about to close. -/
theorem callGroups_never_empty_witness :
    (∀ e ∈ (run State.init
        [.message 1 0 (.register (.str "u1")), .message 1 1000 .createCall,
         .message 2 0 (.register (.str "u2")),
         .message 2 0 (.joinCall (.str "call-1000")), .close 1]).callGroups, e.2 ≠ []) ∧
    mapHas (handleClose (run State.init
        [.message 1 0 (.register (.str "u1")), .message 1 1000 .createCall,
         .message 2 0 (.register (.str "u2")),
         .message 2 0 (.joinCall (.str "call-1000")), .close 1]) 2).1.callGroups
      (.str "call-1000") = false :=
  ⟨(callGroups_never_empty _).1,
   (callGroups_never_empty
      [.message 1 0 (.register (.str "u1")), .message 1 1000 .createCall,
       .message 2 0 (.register (.str "u2")),
       .message 2 0 (.joinCall (.str "call-1000")), .close 1]).2 2 [.str "u2"]
      (by decide) (by decide) (by decide)⟩

/-! ## C9: `get-peers` -/

/-- C9. A `get-peers` message from connection `ws` leaves the state unchanged and
sends exactly one message, to `ws`: a `peers-list` whose `peers` holds an id exactly
when that id is a key of `clients` other than the connection's own `clientId`. -/
theorem getPeers_snapshot (s : State) (ws now : Nat) :
    (handleMessage s ws now .getPeers).1 = s ∧
    ∃ peers, (handleMessage s ws now .getPeers).2 = [(ws, .peersList peers)] ∧
      ∀ x, x ∈ peers ↔ (mapHas s.clients x = true ∧ x ≠ (s.conn ws).clientId) := by
  exact ⟨rfl, _, handleMessage_getPeers s ws now ▸ rfl, mem_peers_iff s ws⟩

/-! ## C2: the roster sent on `join-call` -/

/-- C2, as stated, fails: in the state after `traceStaleMember` the call `call-1000`
has the member `u1`, which is no longer a key of `clients`; when `u2` joins, the
member set becomes `u1, u2` but the only `peer-joined` sent goes to connection 2,
so the member `u1` receives none. -/
theorem joinCall_roster_counterexample :
    mapGet (run State.init traceStaleMember).callGroups (.str "call-1000")
      = some [.str "u1"] ∧
    mapGet (run State.init traceStaleMember).clients (.str "u1") = none ∧
    mapGet (handleMessage (run State.init traceStaleMember) 2 0
        (.joinCall (.str "call-1000"))).1.callGroups (.str "call-1000")
      = some [.str "u1", .str "u2"] ∧
    (handleMessage (run State.init traceStaleMember) 2 0 (.joinCall (.str "call-1000"))).2
      = [(2, .peerJoined (.str "u2") (.str "call-1000") [.str "u1", .str "u2"])] := by
  decide

/-- C2, amended. When `callId` is in `callGroups` with member list `members`, a
`join-call` from a connection whose `clientId` is `r` leaves `clients` unchanged,
leaves every other call unchanged, and sets the member set of `callId` to
`members ∪ {r}` (without duplicates when `members` has none). Going through the new
member set in order, it sends one `peer-joined{r, callId, allPeers}` to the
transport registered under each member that is a key of `clients`, nothing for a
member that is not, and nothing else; `allPeers` is the new member set. -/
theorem joinCall_roster (s : State) (ws now : Nat) (callId : JVal) (members : List JVal)
    (hget : mapGet s.callGroups callId = some members) :
    (handleMessage s ws now (.joinCall callId)).1.clients = s.clients ∧
    mapGet (handleMessage s ws now (.joinCall callId)).1.callGroups callId
      = some (setAdd members (s.conn ws).clientId) ∧
    (∀ k, k ≠ callId →
      mapGet (handleMessage s ws now (.joinCall callId)).1.callGroups k
        = mapGet s.callGroups k) ∧
    (∀ x, x ∈ setAdd members (s.conn ws).clientId ↔ x ∈ members ∨ x = (s.conn ws).clientId) ∧
    (members.Nodup → (setAdd members (s.conn ws).clientId).Nodup) ∧
    (handleMessage s ws now (.joinCall callId)).2
      = (setAdd members (s.conn ws).clientId).filterMap
          (fun p => (mapGet s.clients p).map
            (fun t => (t, OutMsg.peerJoined (s.conn ws).clientId callId
              (setAdd members (s.conn ws).clientId)))) := by
  rw [handleMessage_joinCall_some s ws now callId members hget]
  refine ⟨rfl, mapGet_mapSet_self _ _ _, ?_, mem_setAdd _ _, nodup_setAdd _ _, ?_⟩
  · intro k hk
    exact mapGet_mapSet_ne _ _ _ _ hk
  · exact forEachSend_eq_filterMap _ _ _

/-- C2, amended, at Scenario A of the specification: `u2` joins the call of `u1`
and both receive the roster `u1, u2`. -/
theorem joinCall_roster_witness :
    (handleMessage (run State.init traceCallOpen) 2 0 (.joinCall (.str "call-1000"))).2
      = [(1, .peerJoined (.str "u2") (.str "call-1000") [.str "u1", .str "u2"]),
         (2, .peerJoined (.str "u2") (.str "call-1000") [.str "u1", .str "u2"])] :=
  (joinCall_roster (run State.init traceCallOpen) 2 0 (.str "call-1000") [.str "u1"]
    (by decide)).2.2.2.2.2.trans (by decide)

/-! ## C3: relay -/

/-- C3, as stated, fails for a falsy target: after `traceEmptyId` the empty string
is a key of `clients` (registered by connection 1), yet an `offer` whose `target` is
the empty string sends nothing. -/
theorem relay_counterexample :
    mapGet (run State.init traceEmptyId).clients (.str "") = some 1 ∧
    (handleMessage (run State.init traceEmptyId) 2 0
        (.relay .offer (.str "") ⟨"sdp"⟩)).2 = [] := by
  decide

/-- C3, amended. A relayed message (`offer`, `answer` or `ice-candidate`) never
changes the state. When `target` is truthy and a key of `clients`, exactly one
message is sent: `{type: kind, from: clientId, data}` with the same `data`, to the
transport registered under `target`. When `target` is falsy or is not a key of
`clients`, nothing is sent. -/
theorem relay_to_target_only (s : State) (ws now : Nat) (kind : RelayKind)
    (target : JVal) (data : Payload) :
    (handleMessage s ws now (.relay kind target data)).1 = s ∧
    (∀ t, target.truthy = true → mapGet s.clients target = some t →
      (handleMessage s ws now (.relay kind target data)).2
        = [(t, .relayed kind (s.conn ws).clientId data)]) ∧
    (target.truthy = false ∨ mapGet s.clients target = none →
      (handleMessage s ws now (.relay kind target data)).2 = []) := by
  refine ⟨?_, ?_, ?_⟩
  · by_cases h : target.truthy = true
    · cases hget : mapGet s.clients target with
      | none => rw [handleMessage_relay_drop s ws now kind target data (Or.inr hget)]
      | some t => rw [handleMessage_relay_some s ws now kind target data t h hget]
    · rw [handleMessage_relay_drop s ws now kind target data (Or.inl (by simpa using h))]
  · intro t h hget
    rw [handleMessage_relay_some s ws now kind target data t h hget]
  · intro h
    rw [handleMessage_relay_drop s ws now kind target data h]

/-- C3, amended, at Scenario B of the specification: `u1` sends an offer to `u2`. -/
theorem relay_to_target_only_witness :
    (handleMessage (run State.init traceCallOpen) 1 0
        (.relay .offer (.str "u2") ⟨"sdp"⟩)).2
      = [(2, .relayed .offer (.str "u1") ⟨"sdp"⟩)] ∧
    ((JVal.str "").truthy = false ∨ mapGet (run State.init traceCallOpen).clients (.str "") = none) ∧
    (handleMessage (run State.init traceCallOpen) 1 0
        (.relay .offer (.str "") ⟨"sdp"⟩)).2 = [] :=
  ⟨(relay_to_target_only (run State.init traceCallOpen) 1 0 .offer (.str "u2") ⟨"sdp"⟩).2.1
      2 (by decide) (by decide),
   Or.inl (by decide),
   (relay_to_target_only (run State.init traceCallOpen) 1 0 .offer (.str "") ⟨"sdp"⟩).2.2
      (Or.inl (by decide))⟩

/-! ## C4: call ids -/

/-- C4 on the code: when `u1` and `u2` each send `create-call` at the same clock
reading 1000, the second request is given the id `call-1000`, which is already the
id of the call of `u1`; afterwards the call table has one entry, whose member set
is `u2` alone, and both connections hold `call-1000` as their current call. -/
theorem createCall_same_clock_collides :
    mapGet (run State.init
        [.message 1 0 (.register (.str "u1")), .message 1 1000 .createCall,
         .message 2 0 (.register (.str "u2"))]).callGroups (.str "call-1000")
      = some [.str "u1"] ∧
    (handleMessage (run State.init
        [.message 1 0 (.register (.str "u1")), .message 1 1000 .createCall,
         .message 2 0 (.register (.str "u2"))]) 2 1000 .createCall).2
      = [(2, .callCreated (.str "call-1000"))] ∧
    (run State.init traceSameClock).callGroups = [(.str "call-1000", [.str "u2"])] ∧
    ((run State.init traceSameClock).conn 1).currentCallId = .str "call-1000" ∧
    ((run State.init traceSameClock).conn 2).currentCallId = .str "call-1000" := by
  decide

/-! ## What `close` does to the registry -/

theorem handleClose_clients (s : State) (ws : Nat) :
    (handleClose s ws).1.clients
      = if (s.conn ws).clientId.truthy then mapDelete s.clients (s.conn ws).clientId
        else s.clients := by
  cases hid : (s.conn ws).clientId.truthy with
  | false => rw [handleClose_falsy s ws hid]; simp
  | true =>
    cases hcall : (s.conn ws).currentCallId.truthy with
    | false => rw [handleClose_no_call s ws hid (Or.inl hcall)]; simp
    | true =>
      cases hget : mapGet s.callGroups (s.conn ws).currentCallId with
      | none => rw [handleClose_no_call s ws hid (Or.inr hget)]; simp
      | some members => rw [handleClose_in_call s ws members hid hcall hget]; simp

theorem mapGet_mapDelete_of_none {κ β : Type} [DecidableEq κ] (m : List (κ × β))
    (k k₀ : κ) (h : mapGet m k₀ = none) : mapGet (mapDelete m k) k₀ = none := by
  by_cases hk : k₀ = k
  · rw [hk]; exact mapGet_mapDelete_self m k
  · rw [mapGet_mapDelete_ne m k k₀ hk]; exact h

/-- An id absent from `clients` stays absent across any event other than a
`register` of that id. -/
theorem clients_absent_step (s : State) (e : Event) (c : JVal)
    (habs : mapGet s.clients c = none)
    (hne : ∀ w now, e ≠ .message w now (.register c)) :
    mapGet (step s e).1.clients c = none := by
  cases e with
  | message ws now m =>
    cases m with
    | register id =>
      have hid : c ≠ id := fun h => hne ws now (by rw [h])
      show mapGet (mapSet s.clients id ws) c = none
      rw [mapGet_mapSet_ne _ _ _ _ hid]
      exact habs
    | createCall =>
      rw [clients_step_of_not_writes s (.message ws now .createCall) rfl]; exact habs
    | joinCall callId =>
      rw [clients_step_of_not_writes s (.message ws now (.joinCall callId)) rfl]; exact habs
    | relay kind target data =>
      rw [clients_step_of_not_writes s (.message ws now (.relay kind target data)) rfl]; exact habs
    | getPeers =>
      rw [clients_step_of_not_writes s (.message ws now .getPeers) rfl]; exact habs
    | getCallParticipants =>
      rw [clients_step_of_not_writes s (.message ws now .getCallParticipants) rfl]; exact habs
    | other =>
      rw [clients_step_of_not_writes s (.message ws now .other) rfl]; exact habs
  | close ws =>
    show mapGet (handleClose s ws).1.clients c = none
    rw [handleClose_clients]
    split
    · exact mapGet_mapDelete_of_none _ _ _ habs
    · exact habs

theorem clients_absent_run (es : List Event) (s : State) (c : JVal)
    (habs : mapGet s.clients c = none)
    (hne : ∀ w now, Event.message w now (.register c) ∉ es) :
    mapGet (run s es).clients c = none := by
  induction es generalizing s with
  | nil => exact habs
  | cons e rest ih =>
    apply ih
    · apply clients_absent_step s e c habs
      intro w now h
      exact hne w now (by rw [h]; exact List.mem_cons_self _ _)
    · intro w now h
      exact hne w now (List.mem_cons_of_mem _ h)

/-- The entry of `clients` under `id` is the same before and after any event that
is neither a close nor a `register` of `id`. -/
theorem clients_entry_step (s : State) (e : Event) (id : JVal)
    (hclose : ∀ w, e ≠ .close w)
    (hreg : ∀ w now, e ≠ .message w now (.register id)) :
    mapGet (step s e).1.clients id = mapGet s.clients id := by
  cases e with
  | message ws now m =>
    cases m with
    | register id' =>
      have hid : id ≠ id' := fun h => hreg ws now (by rw [h])
      show mapGet (mapSet s.clients id' ws) id = _
      exact mapGet_mapSet_ne _ _ _ _ hid
    | createCall => rw [clients_step_of_not_writes s (.message ws now .createCall) rfl]
    | joinCall callId => rw [clients_step_of_not_writes s (.message ws now (.joinCall callId)) rfl]
    | relay kind target data => rw [clients_step_of_not_writes s (.message ws now (.relay kind target data)) rfl]
    | getPeers => rw [clients_step_of_not_writes s (.message ws now .getPeers) rfl]
    | getCallParticipants => rw [clients_step_of_not_writes s (.message ws now .getCallParticipants) rfl]
    | other => rw [clients_step_of_not_writes s (.message ws now .other) rfl]
  | close ws => exact absurd rfl (hclose ws)

theorem clients_entry_run (es : List Event) (s : State) (id : JVal)
    (h : ∀ e ∈ es, (∀ w, e ≠ .close w) ∧ (∀ w now, e ≠ .message w now (.register id))) :
    mapGet (run s es).clients id = mapGet s.clients id := by
  induction es generalizing s with
  | nil => rfl
  | cons e rest ih =>
    have h1 := h e (List.mem_cons_self _ _)
    have h2 := ih (step s e).1 (fun e' he' => h e' (List.mem_cons_of_mem _ he'))
    rw [← clients_entry_step s e id h1.1 h1.2]
    exact h2

/-! ## C5: leaving a call on close -/

/-- C5, as stated, fails: after `traceTwoCalls` the client `u2` is a member of
`call-1000` and of `call-2000`, and its connection holds `call-2000` as current call.
Its close removes it from `call-2000` only: `u2` is still a member of `call-1000`
afterwards, and `u1`, the other member of `call-1000`, is sent no `peer-left`. -/
theorem close_leave_counterexample :
    mapGet (run State.init traceTwoCalls).callGroups (.str "call-1000")
      = some [.str "u1", .str "u2"] ∧
    (handleClose (run State.init traceTwoCalls) 2).1.callGroups
      = [(.str "call-1000", [.str "u1", .str "u2"]), (.str "call-2000", [.str "u3"])] ∧
    (handleClose (run State.init traceTwoCalls) 2).2
      = [(3, .peerLeft (.str "u2") (.str "call-2000"))] := by
  decide

/-- C5, amended. When the closing connection has a truthy `clientId` `c` and its
`currentCallId` `C` is a key of `callGroups` with member list `members`, the close
deletes `c` from `clients`, sets the member set of `C` to `members` without `c`, or
deletes `C` when nothing remains, and leaves every other call as it was. Going
through the remaining members in order, it sends one `peer-left{c, C}` to the
transport registered under each one that is a key of `clients`, nothing for one that
is not, and nothing else. -/
theorem close_leaves_current_call (s : State) (ws : Nat) (members : List JVal)
    (hid : (s.conn ws).clientId.truthy = true)
    (hcall : (s.conn ws).currentCallId.truthy = true)
    (hget : mapGet s.callGroups (s.conn ws).currentCallId = some members)
    (hnodup : members.Nodup) :
    (handleClose s ws).1.clients = mapDelete s.clients (s.conn ws).clientId ∧
    mapGet (handleClose s ws).1.callGroups (s.conn ws).currentCallId
      = (if setDelete members (s.conn ws).clientId = [] then none
         else some (setDelete members (s.conn ws).clientId)) ∧
    (∀ k, k ≠ (s.conn ws).currentCallId →
      mapGet (handleClose s ws).1.callGroups k = mapGet s.callGroups k) ∧
    (∀ x, x ∈ setDelete members (s.conn ws).clientId
      ↔ x ∈ members ∧ x ≠ (s.conn ws).clientId) ∧
    (setDelete members (s.conn ws).clientId).Nodup ∧
    (handleClose s ws).2
      = (setDelete members (s.conn ws).clientId).filterMap
          (fun p => (mapGet s.clients p).map
            (fun t => (t, OutMsg.peerLeft (s.conn ws).clientId (s.conn ws).currentCallId))) := by
  rw [handleClose_in_call s ws members hid hcall hget]
  refine ⟨rfl, ?_, ?_, mem_setDelete _ _, nodup_setDelete _ _ hnodup, ?_⟩
  · by_cases hnil : setDelete members (s.conn ws).clientId = []
    · simp only [hnil, if_true]
      exact mapGet_mapDelete_self _ _
    · simp only [hnil, if_false]
      exact mapGet_mapSet_self _ _ _
  · intro k hk
    by_cases hnil : setDelete members (s.conn ws).clientId = []
    · simp only [hnil, if_true]
      rw [mapGet_mapDelete_ne _ _ _ hk, mapGet_mapSet_ne _ _ _ _ hk]
    · simp only [hnil, if_false]
      exact mapGet_mapSet_ne _ _ _ _ hk
  · simp only
    rw [forEachSend_eq_filterMap]
    apply List.filterMap_congr
    intro p hp
    have hne : p ≠ (s.conn ws).clientId := ((mem_setDelete _ _ _).1 hp).2
    rw [mapGet_mapDelete_ne _ _ _ hne]

/-- C5, amended, at Scenario C of the specification: `u2` closes while in
`call-1000` with `u1`, and `u1` is sent `peer-left`. -/
theorem close_leaves_current_call_witness :
    (handleClose (run State.init traceJoined) 2).2
      = [(1, .peerLeft (.str "u2") (.str "call-1000"))] :=
  (close_leaves_current_call (run State.init traceJoined) 2 [.str "u1", .str "u2"]
    (by decide) (by decide) (by decide) (by decide)).2.2.2.2.2.trans (by decide)

/-! ## C6: the registry after a close -/

/-- C6, as stated, fails: connection 1 registers `a` and then `b`; after its close
the entry `a ↦ 1` is still in `clients`, and a `get-peers` from connection 2 lists
`a`. -/
theorem close_registry_counterexample :
    (handleClose (run State.init traceReRegister) 1).1.clients
      = [(.str "a", 1), (.str "u2", 2)] ∧
    (handleMessage (handleClose (run State.init traceReRegister) 1).1 2 0 .getPeers).2
      = [(2, .peersList [.str "a"])] := by
  decide

/-- C6, amended. When the closing connection has a truthy `clientId` `c` (the id of
its latest `register`), the close deletes the entry under `c` from `clients` and
nothing else; `c` is then not a key of `clients`, and after any further events
among which there is no `register` of `c`, no `peers-list` reply lists `c`. -/
theorem close_removes_current_id (s : State) (ws : Nat)
    (hid : (s.conn ws).clientId.truthy = true) :
    (handleClose s ws).1.clients = mapDelete s.clients (s.conn ws).clientId ∧
    mapHas (handleClose s ws).1.clients (s.conn ws).clientId = false ∧
    ∀ (es : List Event),
      (∀ w now, Event.message w now (.register (s.conn ws).clientId) ∉ es) →
      ∀ (w now : Nat) (t : Nat) (peers : List JVal),
        (t, OutMsg.peersList peers)
          ∈ (handleMessage (run (handleClose s ws).1 es) w now .getPeers).2 →
        (s.conn ws).clientId ∉ peers := by
  have hcl : (handleClose s ws).1.clients = mapDelete s.clients (s.conn ws).clientId := by
    rw [handleClose_clients, hid]; rfl
  have habs : mapGet (handleClose s ws).1.clients (s.conn ws).clientId = none := by
    rw [hcl]; exact mapGet_mapDelete_self _ _
  refine ⟨hcl, (mapHas_eq_false_iff _ _).2 habs, ?_⟩
  intro es hes w now t peers hmem hin
  have hlater := clients_absent_run es (handleClose s ws).1 _ habs hes
  rw [handleMessage_getPeers] at hmem
  simp only [List.mem_singleton, Prod.mk.injEq, OutMsg.peersList.injEq] at hmem
  rw [hmem.2] at hin
  have hhas := ((mem_peers_iff _ w _).1 hin).1
  rw [(mapHas_eq_false_iff _ _).2 hlater] at hhas
  exact Bool.noConfusion hhas

/-- C6, amended, at a trace: after `traceTwoCalls` the client `u2` closes; `u3`
asks for the participants of its call, then `u1` asks for the peers and is sent the
list `u3`, without `u2`. -/
theorem close_removes_current_id_witness :
    mapHas (handleClose (run State.init traceTwoCalls) 2).1.clients (.str "u2") = false ∧
    JVal.str "u2" ∉ [JVal.str "u3"] :=
  ⟨(close_removes_current_id (run State.init traceTwoCalls) 2 (by decide)).2.1,
   (close_removes_current_id (run State.init traceTwoCalls) 2 (by decide)).2.2
     [.message 3 0 .getCallParticipants] (by intro w now h; simp at h) 1 0 1
     [.str "u3"] (by decide)⟩

/-! ## C7: `join-call` with an unknown call id -/

/-- C7 on the code: after `traceJoined` (`u2` is in `call-1000` with `u1`), a
`join-call` of `u2` for the unknown id `nonexistent` sends nothing and leaves
`clients` and `callGroups` as they were, but it overwrites the connection's
`currentCallId`. Without that message the close of `u2` removes it from `call-1000`
and sends `peer-left` to `u1`; with it, the close sends nothing and `u2` stays a
member of `call-1000`. -/
theorem joinCall_unknown_breaks_close :
    (handleMessage (run State.init traceJoined) 2 0 (.joinCall (.str "nonexistent"))).2 = [] ∧
    (handleMessage (run State.init traceJoined) 2 0 (.joinCall (.str "nonexistent"))).1.clients
      = (run State.init traceJoined).clients ∧
    (handleMessage (run State.init traceJoined) 2 0
        (.joinCall (.str "nonexistent"))).1.callGroups
      = (run State.init traceJoined).callGroups ∧
    ((handleMessage (run State.init traceJoined) 2 0
        (.joinCall (.str "nonexistent"))).1.conn 2).currentCallId = .str "nonexistent" ∧
    (handleClose (run State.init traceJoined) 2).2
      = [(1, .peerLeft (.str "u2") (.str "call-1000"))] ∧
    (handleClose (run State.init traceJoined) 2).1.callGroups
      = [(.str "call-1000", [.str "u1"])] ∧
    (handleClose (handleMessage (run State.init traceJoined) 2 0
        (.joinCall (.str "nonexistent"))).1 2).2 = [] ∧
    (handleClose (handleMessage (run State.init traceJoined) 2 0
        (.joinCall (.str "nonexistent"))).1 2).1.callGroups
      = [(.str "call-1000", [.str "u1", .str "u2"])] := by
  decide

/-! ## C8: `register` -/

/-- C8, as stated, fails for a falsy id: connection 1 and then connection 2 register
the empty string, so the empty string maps to connection 2, but an `offer` whose
`target` is the empty string is sent to nobody. -/
theorem register_relay_counterexample :
    mapGet (run State.init traceEmptyIdTwice).clients (.str "") = some 2 ∧
    (handleMessage (run State.init traceEmptyIdTwice) 3 0
        (.relay .offer (.str "") ⟨"sdp"⟩)).2 = [] := by
  decide

/-- C8, amended. A `register{id}` on transport `ws` maps `id` to `ws` in `clients`,
leaves the entry of every other id and the whole of `callGroups` unchanged, and sends
nothing. When `id` is truthy and is registered on `ws` and later on `t₂`, whatever
happens in between, and no close and no other `register` of `id` follows, a relayed
message whose `target` is `id` produces exactly one sent message, addressed to
`t₂`. -/
theorem register_last_writer_wins (s : State) (ws now : Nat) (id : JVal) :
    (mapGet (handleMessage s ws now (.register id)).1.clients id = some ws ∧
     (∀ k, k ≠ id →
        mapGet (handleMessage s ws now (.register id)).1.clients k = mapGet s.clients k) ∧
     (handleMessage s ws now (.register id)).1.callGroups = s.callGroups ∧
     (handleMessage s ws now (.register id)).2 = []) ∧
    (∀ (t₂ now₂ w now₃ : Nat) (kind : RelayKind) (data : Payload)
        (mid after : List Event),
      id.truthy = true →
      (∀ e ∈ after,
        (∀ w, e ≠ .close w) ∧ (∀ w n, e ≠ .message w n (.register id))) →
      (handleMessage
          (run (handleMessage (run (handleMessage s ws now (.register id)).1 mid)
            t₂ now₂ (.register id)).1 after)
          w now₃ (.relay kind id data)).2
        = [(t₂, .relayed kind
            ((run (handleMessage (run (handleMessage s ws now (.register id)).1 mid)
              t₂ now₂ (.register id)).1 after).conn w).clientId data)]) := by
  refine ⟨⟨mapGet_mapSet_self _ _ _, fun k hk => mapGet_mapSet_ne _ _ _ _ hk, rfl, rfl⟩, ?_⟩
  intro t₂ now₂ w now₃ kind data mid after htruthy hev
  have hget : mapGet (run (handleMessage (run (handleMessage s ws now (.register id)).1 mid)
      t₂ now₂ (.register id)).1 after).clients id = some t₂ := by
    rw [clients_entry_run after _ id hev]
    exact mapGet_mapSet_self _ _ _
  rw [handleMessage_relay_some _ w now₃ kind id data t₂ htruthy hget]

/-- C8, amended, at a trace: `u9` registers on connection 1 and then on connection
2; an offer of connection 3 to `u9` goes to connection 2 only. -/
theorem register_last_writer_wins_witness :
    (handleMessage
        (run (handleMessage (run (handleMessage State.init 1 0 (.register (.str "u9"))).1
          [.message 3 0 (.register (.str "u3"))]) 2 0 (.register (.str "u9"))).1
          [.message 3 0 .getPeers])
        3 0 (.relay .offer (.str "u9") ⟨"sdp"⟩)).2
      = [(2, .relayed .offer (.str "u3") ⟨"sdp"⟩)] :=
  (register_last_writer_wins State.init 1 0 (.str "u9")).2 2 0 3 0 .offer ⟨"sdp"⟩
    [.message 3 0 (.register (.str "u3"))] [.message 3 0 .getPeers] (by decide)
    (by
      intro e he
      simp only [List.mem_singleton] at he
      subst he
      exact ⟨fun w h => Event.noConfusion h, fun w n h => by simp at h⟩)

/-! ## C10: what a close leaves in the registry -/

/-- C10, as stated, fails: connection 1 and then connection 2 register `x`, so `x`
maps to connection 2; the close of connection 1 deletes that entry, and an offer to
`x` is then sent to nobody. -/
theorem close_frame_counterexample :
    mapGet (run State.init traceSharedId).clients (.str "x") = some 2 ∧
    mapGet (handleClose (run State.init traceSharedId) 1).1.clients (.str "x") = none ∧
    (handleMessage (handleClose (run State.init traceSharedId) 1).1 3 0
        (.relay .offer (.str "x") ⟨"sdp"⟩)).2 = [] := by
  decide

/-- C10, amended. The close of a connection whose `clientId` is `c` leaves the entry
of `clients` under every id other than `c` unchanged, and a truthy such id that is
registered is still sent the messages relayed to it. The entry under `c` itself is
deleted when `c` is truthy, whichever transport it maps to; when `c` is falsy
`clients` is unchanged. -/
theorem close_keeps_other_ids (s : State) (ws : Nat) :
    (∀ k, k ≠ (s.conn ws).clientId →
      mapGet (handleClose s ws).1.clients k = mapGet s.clients k) ∧
    (∀ (k : JVal) (t w now : Nat) (kind : RelayKind) (data : Payload),
      k ≠ (s.conn ws).clientId → k.truthy = true → mapGet s.clients k = some t →
      (handleMessage (handleClose s ws).1 w now (.relay kind k data)).2
        = [(t, .relayed kind (((handleClose s ws).1).conn w).clientId data)]) ∧
    ((s.conn ws).clientId.truthy = true →
      mapGet (handleClose s ws).1.clients (s.conn ws).clientId = none) ∧
    ((s.conn ws).clientId.truthy = false → (handleClose s ws).1.clients = s.clients) := by
  have hframe : ∀ k, k ≠ (s.conn ws).clientId →
      mapGet (handleClose s ws).1.clients k = mapGet s.clients k := by
    intro k hk
    rw [handleClose_clients]
    split
    · exact mapGet_mapDelete_ne _ _ _ hk
    · rfl
  refine ⟨hframe, ?_, ?_, ?_⟩
  · intro k t w now kind data hk htruthy hget
    have hget2 : mapGet (handleClose s ws).1.clients k = some t := by
      rw [hframe k hk]; exact hget
    rw [handleMessage_relay_some _ w now kind k data t htruthy hget2]
  · intro hid
    rw [handleClose_clients, hid]
    exact mapGet_mapDelete_self _ _
  · intro hid
    rw [handleClose_clients, hid]
    rfl

/-- C10, amended, at a trace: after `traceTwoCalls` the client `u2` closes; `u1`
keeps its entry and is sent an offer of `u3`, and the entry of `u2` is gone. -/
theorem close_keeps_other_ids_witness :
    mapGet (handleClose (run State.init traceTwoCalls) 2).1.clients (.str "u1") = some 1 ∧
    (handleMessage (handleClose (run State.init traceTwoCalls) 2).1 3 0
        (.relay .offer (.str "u1") ⟨"sdp"⟩)).2
      = [(1, .relayed .offer (.str "u3") ⟨"sdp"⟩)] ∧
    mapGet (handleClose (run State.init traceTwoCalls) 2).1.clients (.str "u2") = none :=
  ⟨((close_keeps_other_ids (run State.init traceTwoCalls) 2).1 (.str "u1")
      (by decide)).trans (by decide),
   (close_keeps_other_ids (run State.init traceTwoCalls) 2).2.1 (.str "u1") 1 3 0 .offer
      ⟨"sdp"⟩ (by decide) (by decide) (by decide),
   (close_keeps_other_ids (run State.init traceTwoCalls) 2).2.2.1 (by decide)⟩

end Vidmet
